import Mathlib

/-!
Shallow embedding of the coming-soon landing page (src/coming-soon/app/page.tsx).

The program is a single React file with three components:

- App (root controller): owns the boolean state isLoading (initialized true),
  schedules a one-shot 800 ms timeout that sets isLoading to false, clears the
  timeout in its effect cleanup, and renders the Loader while isLoading and the
  LandingPage otherwise, inside an AnimatePresence with mode "wait".
- Loader: a static outer ring and an inner ring animated to rotate 360 on a
  linear, duration-1, infinitely repeating transition; the root motion.div has
  initial opacity 1 and an exit prop that carries only a transition
  (duration 0.8, easeInOut) and no target values.
- LandingPage: a mount effect that sets document.title and upserts the
  meta[name="description"] element, plus static content including one anchor
  to the GitHub profile and a footer interpolating the current year.

We embed the document metadata state, the timer-driven state machine, and the
static JSX configuration, and prove the behavioural properties.
-/

/-! ## Document model and the LandingPage metadata effect -/

/-- A child of the document head: either a meta element (name and content
attributes) or some other element we leave abstract. -/
inductive HeadElem where
  | meta (name : String) (content : String)
  | other (data : String)
deriving DecidableEq, Repr

/-- The parts of the hosting document the effect can touch: title, head
children, and (for the frame property) the rest of the document kept abstract. -/
structure Document where
  title : String
  head : List HeadElem
  body : String
deriving DecidableEq, Repr

/-- Whether an element matches the selector meta[name="description"]. -/
def isMetaDescription : HeadElem → Bool
  | HeadElem.meta n _ => decide (n = "description")
  | HeadElem.other _ => false

/-- setAttribute("content", v) on a head element: meta keeps its name, content
is replaced; non-meta elements are untouched. -/
def setContent : HeadElem → String → HeadElem
  | HeadElem.meta n _, v => HeadElem.meta n v
  | HeadElem.other s, _ => HeadElem.other s

/-- Model of querySelector-then-setAttribute: update the first element matching
meta[name="description"], leaving everything else in place. -/
def updateFirstMeta (v : String) : List HeadElem → List HeadElem
  | [] => []
  | e :: rest =>
    if isMetaDescription e then setContent e v :: rest
    else e :: updateFirstMeta v rest

/-- The content attribute of a head element, when it is a meta element. -/
def contentOf : HeadElem → Option String
  | HeadElem.meta _ c => some c
  | HeadElem.other _ => none

/-- Model of reading the description metadata: the content attribute of the
first element matching meta[name="description"], if any. -/
def findDescContent : List HeadElem → Option String
  | [] => none
  | e :: rest => if isMetaDescription e then contentOf e else findDescContent rest

/-- The title literal set by the LandingPage mount effect. -/
def pageTitle : String := "Timothé Fardella | First Blockchain Portfolio Coming Soon"

/-- The description literal set by the LandingPage mount effect. -/
def pageDescription : String := "My new blockchain portfolio website is currently under construction. Coming soon."

/-- The LandingPage mount effect: set document.title, then either update the
existing meta[name="description"] in place or create one and append it to the
head. Direct translation of the useEffect body in LandingPage. -/
def runMetaEffect (d : Document) : Document :=
  let d1 : Document := { d with title := pageTitle }
  if d1.head.any isMetaDescription then
    { d1 with head := updateFirstMeta pageDescription d1.head }
  else
    { d1 with head := d1.head ++ [HeadElem.meta "description" pageDescription] }

example :
    runMetaEffect { title := "t", head := [HeadElem.other "x"], body := "b" } =
      { title := pageTitle,
        head := [HeadElem.other "x", HeadElem.meta "description" pageDescription],
        body := "b" } := by decide

example :
    runMetaEffect
        { title := "t",
          head := [HeadElem.meta "description" "old", HeadElem.meta "description" "old2"],
          body := "b" } =
      { title := pageTitle,
        head := [HeadElem.meta "description" pageDescription, HeadElem.meta "description" "old2"],
        body := "b" } := by decide

/-! ### Lemmas about the metadata upsert -/

theorem setContent_of_isMetaDescription (e : HeadElem) (v : String)
    (h : isMetaDescription e = true) : setContent e v = HeadElem.meta "description" v := by
  cases e with
  | meta n c =>
    simp only [isMetaDescription, decide_eq_true_eq] at h
    simp [setContent, h]
  | other s => simp [isMetaDescription] at h

theorem isMetaDescription_setContent (e : HeadElem) (v : String) :
    isMetaDescription (setContent e v) = isMetaDescription e := by
  cases e <;> simp [setContent, isMetaDescription]

theorem findDescContent_updateFirstMeta (l : List HeadElem) (v : String)
    (h : l.any isMetaDescription = true) :
    findDescContent (updateFirstMeta v l) = some v := by
  induction l with
  | nil => simp at h
  | cons e rest ih =>
    by_cases he : isMetaDescription e = true
    · rw [updateFirstMeta, if_pos he, setContent_of_isMetaDescription e v he]
      simp [findDescContent, isMetaDescription, contentOf]
    · rw [updateFirstMeta, if_neg he]
      rw [List.any_cons] at h
      simp only [Bool.not_eq_true] at he
      rw [he, Bool.false_or] at h
      rw [findDescContent, if_neg (by simp [he]), ih h]

theorem findDescContent_append_desc (l : List HeadElem) (v : String)
    (h : l.any isMetaDescription = false) :
    findDescContent (l ++ [HeadElem.meta "description" v]) = some v := by
  induction l with
  | nil => simp [findDescContent, isMetaDescription, contentOf]
  | cons e rest ih =>
    rw [List.any_cons, Bool.or_eq_false_iff] at h
    rw [List.cons_append, findDescContent, if_neg (by simp [h.1]), ih h.2]

theorem any_updateFirstMeta (l : List HeadElem) (v : String) :
    (updateFirstMeta v l).any isMetaDescription = l.any isMetaDescription := by
  induction l with
  | nil => rfl
  | cons e rest ih =>
    by_cases he : isMetaDescription e = true
    · rw [updateFirstMeta, if_pos he]
      simp [List.any_cons, isMetaDescription_setContent, he]
    · rw [updateFirstMeta, if_neg he]
      simp only [List.any_cons, ih]

theorem updateFirstMeta_idem (l : List HeadElem) (v : String) :
    updateFirstMeta v (updateFirstMeta v l) = updateFirstMeta v l := by
  induction l with
  | nil => rfl
  | cons e rest ih =>
    by_cases he : isMetaDescription e = true
    · rw [updateFirstMeta, if_pos he, setContent_of_isMetaDescription e v he]
      rw [updateFirstMeta, if_pos (by simp [isMetaDescription])]
      simp [setContent]
    · rw [updateFirstMeta, if_neg he, updateFirstMeta, if_neg he, ih]

theorem updateFirstMeta_append_desc (l : List HeadElem) (v : String)
    (h : l.any isMetaDescription = false) :
    updateFirstMeta v (l ++ [HeadElem.meta "description" v]) =
      l ++ [HeadElem.meta "description" v] := by
  induction l with
  | nil =>
    simp only [List.nil_append]
    rw [updateFirstMeta, if_pos (by simp [isMetaDescription])]
    simp [setContent]
  | cons e rest ih =>
    rw [List.any_cons, Bool.or_eq_false_iff] at h
    rw [List.cons_append, updateFirstMeta, if_neg (by simp [h.1]), ih h.2]

theorem updateFirstMeta_length (l : List HeadElem) (v : String) :
    (updateFirstMeta v l).length = l.length := by
  induction l with
  | nil => rfl
  | cons e rest ih =>
    by_cases he : isMetaDescription e = true
    · rw [updateFirstMeta, if_pos he]
      simp
    · rw [updateFirstMeta, if_neg he]
      simp [ih]

theorem updateFirstMeta_getElem_at (l : List HeadElem) (v : String)
    (h : l.any isMetaDescription = true) :
    (updateFirstMeta v l)[l.findIdx isMetaDescription]? =
      some (HeadElem.meta "description" v) := by
  induction l with
  | nil => simp at h
  | cons e rest ih =>
    by_cases he : isMetaDescription e = true
    · rw [updateFirstMeta, if_pos he, setContent_of_isMetaDescription e v he,
        List.findIdx_cons, he]
      simp
    · rw [updateFirstMeta, if_neg he, List.findIdx_cons]
      rw [List.any_cons] at h
      simp only [Bool.not_eq_true] at he
      rw [he, Bool.false_or] at h
      rw [he]
      simp only [cond_false, List.getElem?_cons_succ]
      exact ih h

theorem updateFirstMeta_getElem_ne (l : List HeadElem) (v : String) (i : Nat)
    (h : i ≠ l.findIdx isMetaDescription) :
    (updateFirstMeta v l)[i]? = l[i]? := by
  induction l generalizing i with
  | nil => rfl
  | cons e rest ih =>
    by_cases he : isMetaDescription e = true
    · rw [updateFirstMeta, if_pos he]
      rw [List.findIdx_cons, he] at h
      simp only [cond_true] at h
      cases i with
      | zero => exact absurd rfl h
      | succ j => simp
    · rw [updateFirstMeta, if_neg he]
      rw [List.findIdx_cons] at h
      simp only [Bool.not_eq_true] at he
      rw [he] at h
      simp only [cond_false] at h
      cases i with
      | zero => simp
      | succ j =>
        simp only [List.getElem?_cons_succ]
        exact ih j (fun hj => h (by rw [hj]))

/-! ### Evaluation lemmas for the two branches of the effect -/

theorem runMetaEffect_of_any (d : Document) (h : d.head.any isMetaDescription = true) :
    runMetaEffect d =
      { title := pageTitle, head := updateFirstMeta pageDescription d.head,
        body := d.body } := by
  rw [runMetaEffect]
  simp [h]

theorem runMetaEffect_of_not_any (d : Document) (h : d.head.any isMetaDescription = false) :
    runMetaEffect d =
      { title := pageTitle,
        head := d.head ++ [HeadElem.meta "description" pageDescription],
        body := d.body } := by
  rw [runMetaEffect]
  simp [h]

theorem any_after_runMetaEffect (d : Document) :
    (runMetaEffect d).head.any isMetaDescription = true := by
  by_cases h : d.head.any isMetaDescription = true
  · rw [runMetaEffect_of_any d h]
    rw [any_updateFirstMeta, h]
  · simp only [Bool.not_eq_true] at h
    rw [runMetaEffect_of_not_any d h]
    simp [List.any_append, isMetaDescription]

/-! ### Claim theorems for the metadata effect -/

/-- C3: After the LandingPage mount effect runs, the document title equals the
fixed title literal and the description metadata (content of the first
meta[name="description"] element) equals the fixed description literal, for
every prior document state, whether or not a description meta existed before. -/
theorem metaEffect_sets_title_and_description (d : Document) :
    (runMetaEffect d).title = pageTitle ∧
    findDescContent (runMetaEffect d).head = some pageDescription := by
  by_cases h : d.head.any isMetaDescription = true
  · rw [runMetaEffect_of_any d h]
    exact ⟨rfl, findDescContent_updateFirstMeta d.head pageDescription h⟩
  · simp only [Bool.not_eq_true] at h
    rw [runMetaEffect_of_not_any d h]
    exact ⟨rfl, findDescContent_append_desc d.head pageDescription h⟩

/-- C5: The metadata effect is idempotent: running it twice leaves the document
in the same state as running it once, and after one run the document has a
meta[name="description"] element, so a second run takes the update-in-place
branch rather than appending a second description element. -/
theorem metaEffect_idempotent (d : Document) :
    runMetaEffect (runMetaEffect d) = runMetaEffect d ∧
    (runMetaEffect d).head.any isMetaDescription = true := by
  refine ⟨?_, any_after_runMetaEffect d⟩
  by_cases h : d.head.any isMetaDescription = true
  · rw [runMetaEffect_of_any d h,
      runMetaEffect_of_any _ (by rw [any_updateFirstMeta, h]),
      updateFirstMeta_idem]
  · simp only [Bool.not_eq_true] at h
    rw [runMetaEffect_of_not_any d h,
      runMetaEffect_of_any _ (by simp [List.any_append, isMetaDescription]),
      updateFirstMeta_append_desc d.head pageDescription h]

/-- Example documents used to witness the frame theorem at concrete inputs. -/
def docWithDesc : Document :=
  { title := "old title",
    head := [HeadElem.other "charset", HeadElem.meta "description" "old desc",
      HeadElem.meta "viewport" "width"],
    body := "body content" }

def docWithoutDesc : Document :=
  { title := "old title",
    head := [HeadElem.other "charset", HeadElem.meta "viewport" "width"],
    body := "body content" }

/-- C10: The metadata effect touches only the document title and the first
meta[name="description"] element: the body is unchanged; when a description
meta exists, the head keeps its length, the element at the matched index
becomes the description meta with the new content, and every other index is
unchanged; when none exists, the head is exactly the old head with one new
description meta appended. -/
theorem metaEffect_frame (d : Document) :
    (runMetaEffect d).body = d.body ∧
    (d.head.any isMetaDescription = true →
      (runMetaEffect d).head.length = d.head.length ∧
      (runMetaEffect d).head[d.head.findIdx isMetaDescription]? =
        some (HeadElem.meta "description" pageDescription) ∧
      ∀ i, i ≠ d.head.findIdx isMetaDescription →
        (runMetaEffect d).head[i]? = d.head[i]?) ∧
    (d.head.any isMetaDescription = false →
      (runMetaEffect d).head = d.head ++ [HeadElem.meta "description" pageDescription]) := by
  refine ⟨?_, ?_, ?_⟩
  · by_cases h : d.head.any isMetaDescription = true
    · rw [runMetaEffect_of_any d h]
    · simp only [Bool.not_eq_true] at h
      rw [runMetaEffect_of_not_any d h]
  · intro h
    rw [runMetaEffect_of_any d h]
    exact ⟨updateFirstMeta_length d.head pageDescription,
      updateFirstMeta_getElem_at d.head pageDescription h,
      fun i hi => updateFirstMeta_getElem_ne d.head pageDescription i hi⟩
  · intro h
    rw [runMetaEffect_of_not_any d h]

/-- Witness for the frame theorem: both branches exercised on concrete
documents, with the hypotheses discharged by evaluation. -/
theorem metaEffect_frame_witness :
    ((runMetaEffect docWithDesc).head[0]? = docWithDesc.head[0]? ∧
      (runMetaEffect docWithDesc).head[2]? = docWithDesc.head[2]? ∧
      (runMetaEffect docWithDesc).head.length = docWithDesc.head.length) ∧
    (runMetaEffect docWithoutDesc).head =
      docWithoutDesc.head ++ [HeadElem.meta "description" pageDescription] :=
  ⟨⟨((metaEffect_frame docWithDesc).2.1 (by decide)).2.2 0 (by decide),
    ((metaEffect_frame docWithDesc).2.1 (by decide)).2.2 2 (by decide),
    ((metaEffect_frame docWithDesc).2.1 (by decide)).1⟩,
    (metaEffect_frame docWithoutDesc).2.2 (by decide)⟩

/-! ## Root controller state machine (App)

App holds isLoading (useState true); its mount effect schedules
setTimeout(() => setIsLoading(false), 800) and returns a cleanup running
clearTimeout. We embed this as a state machine over a simulated clock: the
state records the clock, whether the component is live, the flag, and the
pending timeout deadline; events advance the clock (the host fires a due
timeout) or tear the component down (running the cleanup). -/

structure AppState where
  now : Nat
  live : Bool
  isLoading : Bool
  timerDeadline : Option Nat
deriving DecidableEq, Repr

/-- The setTimeout delay in App's mount effect. -/
def loadingDelay : Nat := 800

/-- State right after App mounts: flag true, one-shot timer pending at 800. -/
def mountApp : AppState :=
  { now := 0, live := true, isLoading := true, timerDeadline := some loadingDelay }

inductive Event where
  | tick (dt : Nat)
  | teardown
deriving DecidableEq, Repr

/-- The host fires the pending timeout once its deadline has been reached:
the callback runs setIsLoading(false) and the one-shot timer is consumed. -/
def fireIfDue (s : AppState) : AppState :=
  match s.timerDeadline with
  | some d => if d ≤ s.now then { s with isLoading := false, timerDeadline := none } else s
  | none => s

/-- One step of the machine: a clock advance (after which the host delivers a
due timeout), or teardown (the effect cleanup runs clearTimeout). -/
def step (s : AppState) : Event → AppState
  | Event.tick dt => fireIfDue { s with now := s.now + dt }
  | Event.teardown => { s with live := false, timerDeadline := none }

def run (s : AppState) : List Event → AppState
  | [] => s
  | e :: es => run (step s e) es

/-- Number of steps along the trace at which the loading flag changes value. -/
def flips (s : AppState) : List Event → Nat
  | [] => 0
  | e :: es => (if (step s e).isLoading = s.isLoading then 0 else 1) + flips (step s e) es

/-! ### Lemmas about the state machine -/

theorem fireIfDue_isLoading (s : AppState) :
    (fireIfDue s).isLoading = s.isLoading ∨ (fireIfDue s).isLoading = false := by
  rw [fireIfDue]
  split
  · split
    · exact Or.inr rfl
    · exact Or.inl rfl
  · exact Or.inl rfl

theorem step_isLoading_cases (s : AppState) (e : Event) :
    (step s e).isLoading = s.isLoading ∨ (step s e).isLoading = false := by
  cases e with
  | tick dt => exact fireIfDue_isLoading { s with now := s.now + dt }
  | teardown => exact Or.inl rfl

theorem step_isLoading_of_false (s : AppState) (e : Event) (h : s.isLoading = false) :
    (step s e).isLoading = false := by
  rcases step_isLoading_cases s e with hc | hc
  · rw [hc, h]
  · exact hc

theorem run_isLoading_of_false (es : List Event) (s : AppState) (h : s.isLoading = false) :
    (run s es).isLoading = false := by
  induction es generalizing s with
  | nil => exact h
  | cons e es ih => exact ih (step s e) (step_isLoading_of_false s e h)

theorem flips_of_false (es : List Event) (s : AppState) (h : s.isLoading = false) :
    flips s es = 0 := by
  induction es generalizing s with
  | nil => rfl
  | cons e es ih =>
    rw [flips, ih (step s e) (step_isLoading_of_false s e h)]
    rw [step_isLoading_of_false s e h, h]
    simp

theorem flips_le_one (es : List Event) (s : AppState) : flips s es ≤ 1 := by
  induction es generalizing s with
  | nil => exact Nat.zero_le 1
  | cons e es ih =>
    rw [flips]
    by_cases hc : (step s e).isLoading = s.isLoading
    · simp only [hc, if_true, Nat.zero_add]
      exact ih (step s e)
    · simp only [hc, if_false]
      have hfalse : (step s e).isLoading = false := by
        rcases step_isLoading_cases s e with h | h
        · exact absurd h hc
        · exact h
      rw [flips_of_false es (step s e) hfalse]

theorem flips_pos_of_changed (es : List Event) (s : AppState)
    (h : (run s es).isLoading ≠ s.isLoading) : 1 ≤ flips s es := by
  induction es generalizing s with
  | nil => exact absurd rfl h
  | cons e es ih =>
    rw [flips]
    by_cases hc : (step s e).isLoading = s.isLoading
    · simp only [hc, if_true, Nat.zero_add]
      exact ih (step s e) (by rw [hc]; exact h)
    · simp only [hc, if_false]
      exact Nat.le_add_right 1 _

theorem run_ticks_of_sum_lt (ds : List Nat) (n : Nat) (h : n + ds.sum < loadingDelay) :
    run { now := n, live := true, isLoading := true, timerDeadline := some loadingDelay }
      (ds.map Event.tick) =
    { now := n + ds.sum, live := true, isLoading := true,
      timerDeadline := some loadingDelay } := by
  induction ds generalizing n with
  | nil => simp [run]
  | cons d ds ih =>
    rw [List.sum_cons] at h
    have hd : ¬ loadingDelay ≤ n + d := by omega
    rw [List.map_cons, run]
    have hstep :
        step ({ now := n, live := true, isLoading := true,
                timerDeadline := some loadingDelay } : AppState) (Event.tick d) =
        { now := n + d, live := true, isLoading := true,
          timerDeadline := some loadingDelay } := if_neg hd
    rw [hstep, ih (n + d) (by omega), Nat.add_assoc, List.sum_cons]

theorem step_of_deadline_none (s : AppState) (e : Event) (h : s.timerDeadline = none) :
    (step s e).timerDeadline = none ∧ (step s e).isLoading = s.isLoading := by
  cases s with
  | mk n lv ld td =>
    cases td with
    | some d => exact Option.noConfusion h
    | none =>
      cases e with
      | tick dt => exact ⟨rfl, rfl⟩
      | teardown => exact ⟨rfl, rfl⟩

theorem run_of_deadline_none (es : List Event) (s : AppState) (h : s.timerDeadline = none) :
    (run s es).timerDeadline = none ∧ (run s es).isLoading = s.isLoading := by
  induction es generalizing s with
  | nil => exact ⟨h, rfl⟩
  | cons e es ih =>
    obtain ⟨h1, h2⟩ := step_of_deadline_none s e h
    obtain ⟨g1, g2⟩ := ih (step s e) h1
    exact ⟨g1, g2.trans h2⟩

/-! ### Claim theorems for the root controller -/

/-- C1: The loading flag is initialized to true on mount, stays true along any
sequence of clock ticks totalling less than 800, becomes false once the
800-unit timer fires, once false never reverts to true on any later trace, and
along every trace from mount it changes value at most once — exactly once on
the traces where it ends up false. -/
theorem loadingFlag_init_flips_once :
    mountApp.isLoading = true ∧
    (∀ ds : List Nat, ds.sum < loadingDelay →
      (run mountApp (ds.map Event.tick)).isLoading = true) ∧
    (run mountApp [Event.tick loadingDelay]).isLoading = false ∧
    (∀ s es, s.isLoading = false → (run s es).isLoading = false) ∧
    (∀ es, flips mountApp es ≤ 1) ∧
    (∀ es, (run mountApp es).isLoading = false → flips mountApp es = 1) := by
  refine ⟨rfl, ?_, rfl, ?_, ?_, ?_⟩
  · intro ds hds
    show (run { now := 0, live := true, isLoading := true,
                timerDeadline := some loadingDelay } (ds.map Event.tick)).isLoading = true
    rw [run_ticks_of_sum_lt ds 0 (by simpa using hds)]
  · exact fun s es h => run_isLoading_of_false es s h
  · exact fun es => flips_le_one es mountApp
  · intro es h
    have h1 : 1 ≤ flips mountApp es :=
      flips_pos_of_changed es mountApp
        (by rw [h, show mountApp.isLoading = true from rfl]; exact Bool.false_ne_true)
    exact Nat.le_antisymm (flips_le_one es mountApp) h1

/-- Witness for C1: concrete traces exercising the hypotheses — ticks summing
to 700 keep the flag true, a false flag stays false, and a trace that fires
the timer flips the flag exactly once. -/
theorem loadingFlag_init_flips_once_witness :
    (run mountApp ([300, 400].map Event.tick)).isLoading = true ∧
    (run { now := 900, live := false, isLoading := false, timerDeadline := none }
      [Event.tick 5]).isLoading = false ∧
    flips mountApp [Event.tick 800, Event.teardown, Event.tick 100] = 1 :=
  ⟨loadingFlag_init_flips_once.2.1 [300, 400] (by decide),
    loadingFlag_init_flips_once.2.2.2.1
      { now := 900, live := false, isLoading := false, timerDeadline := none }
      [Event.tick 5] rfl,
    loadingFlag_init_flips_once.2.2.2.2.2
      [Event.tick 800, Event.teardown, Event.tick 100] (by decide)⟩

/-- C2: Tearing the root down while the loading flag is still true (before the
800-unit timer has fired) cancels the pending timeout, and along every
subsequent trace the flag never flips to false and no timer is ever pending
again — no observable state change after teardown. -/
theorem teardown_cancels_timer (es es' : List Event)
    (h : (run mountApp es).isLoading = true) :
    (step (run mountApp es) Event.teardown).timerDeadline = none ∧
    (run (step (run mountApp es) Event.teardown) es').isLoading = true ∧
    (run (step (run mountApp es) Event.teardown) es').timerDeadline = none := by
  have hnone : (step (run mountApp es) Event.teardown).timerDeadline = none := rfl
  have hload : (step (run mountApp es) Event.teardown).isLoading = true := h
  obtain ⟨g1, g2⟩ := run_of_deadline_none es' _ hnone
  exact ⟨hnone, g2.trans hload, g1⟩

/-- Witness for C2: teardown at simulated time 100, then a further 1500 units
of clock: the flag stays true and no timer is pending. -/
theorem teardown_cancels_timer_witness :
    (step (run mountApp [Event.tick 100]) Event.teardown).timerDeadline = none ∧
    (run (step (run mountApp [Event.tick 100]) Event.teardown)
      [Event.tick 700, Event.tick 800]).isLoading = true ∧
    (run (step (run mountApp [Event.tick 100]) Event.teardown)
      [Event.tick 700, Event.tick 800]).timerDeadline = none :=
  teardown_cancels_timer [Event.tick 100] [Event.tick 700, Event.tick 800] (by decide)

/-! ### App's view selection -/

inductive View where
  | loader
  | landing
deriving DecidableEq, Repr

/-- App's JSX: inside AnimatePresence, the conditional renders the Loader
while isLoading is true and the LandingPage otherwise. -/
def render (s : AppState) : View := if s.isLoading then View.loader else View.landing

def rendersLoader (s : AppState) : Bool :=
  match render s with
  | View.loader => true
  | View.landing => false

def rendersLanding (s : AppState) : Bool :=
  match render s with
  | View.loader => false
  | View.landing => true

/-- C4: Exactly one view is selected at every state: the Loader is rendered
precisely when the loading flag is true, the LandingPage precisely when it is
false, never both; immediately after mount the Loader is rendered and the
LandingPage is not. -/
theorem exactly_one_view :
    rendersLoader mountApp = true ∧
    rendersLanding mountApp = false ∧
    (∀ s, rendersLoader s = s.isLoading) ∧
    (∀ s, rendersLanding s = !s.isLoading) ∧
    (∀ s, (rendersLoader s && rendersLanding s) = false) := by
  refine ⟨rfl, rfl, ?_, ?_, ?_⟩ <;> intro s <;>
    cases hb : s.isLoading <;> simp [rendersLoader, rendersLanding, render, hb]

/-! ## Static JSX configuration

The framer-motion props and plain attributes appearing in the JSX, embedded as
records of the literal values in the source. -/

inductive EaseSpec where
  | named (s : String)
  | bezier (a b c d : ℚ)
deriving DecidableEq, Repr

inductive RepeatCount where
  | finite (n : Nat)
  | infinite
deriving DecidableEq, Repr

structure TransitionSpec where
  duration : Option ℚ := none
  ease : Option EaseSpec := none
  repeatCount : Option RepeatCount := none
  delay : Option ℚ := none
  staggerChildren : Option ℚ := none
  delayChildren : Option ℚ := none
deriving DecidableEq, Repr

/-- The animatable property values a prop or variant may set. -/
structure AnimTarget where
  opacity : Option ℚ := none
  rotate : Option ℚ := none
  y : Option ℚ := none
deriving DecidableEq, Repr

/-- A variant or prop object: target property values plus an optional
transition key. -/
structure VariantDef where
  target : AnimTarget := {}
  transition : Option TransitionSpec := none
deriving DecidableEq, Repr

def AnimTarget.isEmpty (t : AnimTarget) : Bool :=
  t.opacity.isNone && t.rotate.isNone && t.y.isNone

/-- Whether a prop object declares at least one property value to animate. -/
def declaresPropertyAnimation (v : VariantDef) : Bool := !(v.target.isEmpty)

/-- The mode of the AnimatePresence wrapping the view switch in App. -/
def appPresenceMode : String := "wait"

/-- The initial prop of the Loader's root motion.div. -/
def loaderInitial : AnimTarget := { opacity := some 1 }

/-- The exit prop of the Loader's root motion.div: only a transition object,
no target values. -/
def loaderExit : VariantDef :=
  { target := {},
    transition := some { duration := some 0.8, ease := some (EaseSpec.named "easeInOut") } }

/-- The outer ring motion.div of the spinner carries no animate prop. -/
def loaderOuterRingAnimate : Option AnimTarget := none

/-- The animate prop of the spinner's inner ring. -/
def loaderInnerRingAnimate : Option AnimTarget := some { rotate := some 360 }

/-- The transition prop of the spinner's inner ring. -/
def loaderInnerRingTransition : TransitionSpec :=
  { duration := some 1, ease := some (EaseSpec.named "linear"),
    repeatCount := some RepeatCount.infinite }

/-- A named pair of variants, as used by the LandingPage. -/
structure Variants where
  hidden : VariantDef
  visible : VariantDef
deriving DecidableEq, Repr

/-- containerVariants in LandingPage. -/
def containerVariants : Variants :=
  { hidden := { target := { opacity := some 0 } },
    visible := { target := { opacity := some 1 },
                 transition := some { staggerChildren := some 0.2,
                                      delayChildren := some 0.3 } } }

/-- itemVariants in LandingPage. -/
def itemVariants : Variants :=
  { hidden := { target := { y := some 20, opacity := some 0 } },
    visible := { target := { y := some 0, opacity := some 1 },
                 transition := some { duration := some 0.8,
                                      ease := some (EaseSpec.bezier 0.2 0.65 0.3 0.9) } } }

/-! ### Claim theorems for the Loader spinner and the view transition -/

/-- C9: The spinner has a static outer ring (no animate and no transition
prop) and an inner ring animated to rotate 360 degrees per loop on a linear
easing with duration 1 and infinite repeat. -/
theorem spinner_rings_config :
    loaderOuterRingAnimate = none ∧
    loaderInnerRingAnimate = some { rotate := some 360 } ∧
    loaderInnerRingTransition.duration = some 1 ∧
    loaderInnerRingTransition.ease = some (EaseSpec.named "linear") ∧
    loaderInnerRingTransition.repeatCount = some RepeatCount.infinite := by
  refine ⟨rfl, rfl, rfl, rfl, rfl⟩

/-- C6 counterexample: the Loader's exit prop declares no target property
values at all — in particular no opacity change — so the outgoing Loading
View is not given an animation that animates it out. -/
theorem loader_exit_animates_nothing :
    declaresPropertyAnimation loaderExit = false := rfl

/-- C6 as amended: the Loader's exit prop carries a transition of duration 0.8
with easeInOut easing but no target values, the AnimatePresence runs in wait
mode (the incoming view mounts only after the outgoing one is removed, so the
switch is sequential rather than a cross-fade), and the incoming Content View
fades and slides in: its container goes from opacity 0 to 1 with staggered
children, and each item goes from y 20, opacity 0 to y 0, opacity 1 over a
0.8-duration eased transition. -/
theorem view_transition_config :
    loaderExit.target.isEmpty = true ∧
    loaderExit.transition =
      some { duration := some 0.8, ease := some (EaseSpec.named "easeInOut") } ∧
    appPresenceMode = "wait" ∧
    loaderInitial = { opacity := some 1 } ∧
    containerVariants.hidden.target.opacity = some 0 ∧
    containerVariants.visible.target.opacity = some 1 ∧
    containerVariants.visible.transition =
      some { staggerChildren := some 0.2, delayChildren := some 0.3 } ∧
    itemVariants.hidden.target = { y := some 20, opacity := some 0 } ∧
    itemVariants.visible.target = { y := some 0, opacity := some 1 } ∧
    itemVariants.visible.transition =
      some { duration := some 0.8, ease := some (EaseSpec.bezier 0.2 0.65 0.3 0.9) } := by
  refine ⟨rfl, rfl, rfl, rfl, rfl, rfl, rfl, rfl, rfl, rfl⟩

/-! ## LandingPage content: the outbound link and the footer -/

/-- An anchor element's navigation-relevant attributes. -/
structure Anchor where
  href : String
  target : Option String
  rel : Option String
deriving DecidableEq, Repr

/-- The one anchor in the LandingPage JSX. -/
def githubAnchor : Anchor :=
  { href := "https://github.com/teamssUTXO",
    target := some "_blank",
    rel := some "noopener noreferrer" }

/-- All anchor elements rendered by the LandingPage. -/
def landingAnchors : List Anchor := [githubAnchor]

/-- Split a character list on spaces, accumulating the current word. -/
def splitOnSpaceAux : List Char → List Char → List (List Char)
  | [], acc => [acc.reverse]
  | c :: cs, acc =>
    if c = ' ' then acc.reverse :: splitOnSpaceAux cs []
    else splitOnSpaceAux cs (c :: acc)

/-- The individual link types carried by an anchor's rel attribute: its value
split on spaces, per the HTML definition of rel as a set of space-separated
tokens. -/
def relTokensOf (a : Anchor) : List String :=
  (splitOnSpaceAux (a.rel.getD "").toList []).map List.asString

example : relTokensOf githubAnchor = ["noopener", "noreferrer"] := by decide

/-- The host clock as visible to the render: new Date() with its getFullYear
accessor. -/
structure JSDate where
  fullYear : Int
deriving DecidableEq, Repr

def JSDate.getFullYear (d : JSDate) : Int := d.fullYear

/-- The inline children of the footer element, in order: the copyright entity,
the interpolated expression new Date().getFullYear(), and the fixed text. -/
def footerNodes (now : JSDate) : List String :=
  ["© ", toString now.getFullYear, " Timothé Fardella. All rights reserved."]

/-- The year text displayed in the footer: the second inline child. -/
def footerDisplayedYear (now : JSDate) : String := (footerNodes now).getD 1 ""

/-- C7: The LandingPage has exactly one outbound hyperlink; its destination is
the fixed GitHub profile URL, it opens in a new browsing context, and its rel
attribute carries both the noopener and the noreferrer link types. -/
theorem github_link_attributes :
    landingAnchors = [githubAnchor] ∧
    landingAnchors.length = 1 ∧
    githubAnchor.href = "https://github.com/teamssUTXO" ∧
    githubAnchor.target = some "_blank" ∧
    (relTokensOf githubAnchor).contains "noopener" = true ∧
    (relTokensOf githubAnchor).contains "noreferrer" = true := by
  refine ⟨rfl, rfl, rfl, rfl, by decide, by decide⟩

/-- C8: For every state of the host clock at render time, the year displayed
in the copyright footer is exactly the rendering of getFullYear of the current
date. -/
theorem footer_year_current (now : JSDate) :
    footerDisplayedYear now = toString now.getFullYear ∧
    footerNodes now =
      ["© ", toString now.getFullYear, " Timothé Fardella. All rights reserved."] :=
  ⟨rfl, rfl⟩
